import Mathlib

/-!
Verification of the compio-ws WebSocket client core.

Shallow embedding of the Rust sources:
  * `src/opcode.rs`   — the `Opcode` enum and its `u8` conversions,
  * `src/frame.rs`    — `Frame::encode` and the masking kernels,
  * `src/client.rs`   — the receive state machine (`read_frame_inner`,
    `ensure_read`, the compaction guard) and the error type.

Bytes are modelled as `Nat` (with explicit `% 2 ^ w` / bitwise masking where
the Rust code truncates); byte buffers as `List Nat`; the asynchronous stream
as the list of bytes it will still deliver before end-of-stream; stateful code
as explicit state passing over `ClientState`; fallible code via `Except`.
-/

deriving instance DecidableEq for Except

namespace CompioWs

/-- WebSocket opcodes, from `src/opcode.rs` (`#[repr(u8)] pub enum Opcode`). -/
inductive Opcode where
  | continuation
  | text
  | binary
  | reserved3
  | reserved4
  | reserved5
  | reserved6
  | reserved7
  | close
  | ping
  | pong
  | reservedB
  | reservedC
  | reservedD
  | reservedE
  | reservedF
  deriving DecidableEq, Repr

/-- Numeric value of an opcode (`impl From<Opcode> for u8`, i.e. `value as u8`
under `#[repr(u8)]` with the discriminants given in `src/opcode.rs`). -/
def Opcode.u8 : Opcode → Nat
  | .continuation => 0x0
  | .text => 0x1
  | .binary => 0x2
  | .reserved3 => 0x3
  | .reserved4 => 0x4
  | .reserved5 => 0x5
  | .reserved6 => 0x6
  | .reserved7 => 0x7
  | .close => 0x8
  | .ping => 0x9
  | .pong => 0xA
  | .reservedB => 0xB
  | .reservedC => 0xC
  | .reservedD => 0xD
  | .reservedE => 0xE
  | .reservedF => 0xF

/-- Error type of `TryFrom<u8> for Opcode` (`OpcodeParseError`). -/
inductive OpcodeParseError where
  | invalidOpcode (value : Nat)
  deriving DecidableEq, Repr

/-- `impl TryFrom<u8> for Opcode` from `src/opcode.rs`: values `0x0..=0xF` map
to the sixteen variants, anything else is `InvalidOpcode`. -/
def Opcode.try_from (value : Nat) : Except OpcodeParseError Opcode :=
  match value with
  | 0x0 => .ok .continuation
  | 0x1 => .ok .text
  | 0x2 => .ok .binary
  | 0x3 => .ok .reserved3
  | 0x4 => .ok .reserved4
  | 0x5 => .ok .reserved5
  | 0x6 => .ok .reserved6
  | 0x7 => .ok .reserved7
  | 0x8 => .ok .close
  | 0x9 => .ok .ping
  | 0xA => .ok .pong
  | 0xB => .ok .reservedB
  | 0xC => .ok .reservedC
  | 0xD => .ok .reservedD
  | 0xE => .ok .reservedE
  | 0xF => .ok .reservedF
  | invalid => .error (.invalidOpcode invalid)

/-- `Opcode::is_control`: `(self as u8) & 0x8 == 0x8`. -/
def Opcode.is_control (o : Opcode) : Bool :=
  o.u8 &&& 0x8 == 0x8

/-- `Opcode::is_data`: `matches!(self, Continuation | Text | Binary)`. -/
def Opcode.is_data (o : Opcode) : Bool :=
  match o with
  | .continuation | .text | .binary => true
  | _ => false

/-- `Opcode::is_reserved`: `!is_data && !matches!(self, Close | Ping | Pong)`. -/
def Opcode.is_reserved (o : Opcode) : Bool :=
  !o.is_data && !(match o with | .close | .ping | .pong => true | _ => false)

/-- The unchecked nibble-to-opcode conversion used by the parser
(`mem::transmute::<u8, Opcode>(b1 & 0x0F)` in `src/client.rs`); its argument
is always `< 16`, and on that range it is the `#[repr(u8)]` value mapping. -/
def Opcode.ofNibble : Nat → Opcode
  | 0x0 => .continuation
  | 0x1 => .text
  | 0x2 => .binary
  | 0x3 => .reserved3
  | 0x4 => .reserved4
  | 0x5 => .reserved5
  | 0x6 => .reserved6
  | 0x7 => .reserved7
  | 0x8 => .close
  | 0x9 => .ping
  | 0xA => .pong
  | 0xB => .reservedB
  | 0xC => .reservedC
  | 0xD => .reservedD
  | 0xE => .reservedE
  | _ => .reservedF

/-- The 4-byte masking key (`mask: [u8; 4]`). -/
structure Mask where
  k0 : Nat
  k1 : Nat
  k2 : Nat
  k3 : Nat
  deriving DecidableEq, Repr

/-- `mask[i & 3]`, the cyclic key lookup used by every masking loop. -/
def Mask.get (m : Mask) (i : Nat) : Nat :=
  match i &&& 3 with
  | 0 => m.k0
  | 1 => m.k1
  | 2 => m.k2
  | _ => m.k3

/-- The four key bytes in order, as copied into the header by `encode`. -/
def Mask.bytes (m : Mask) : List Nat :=
  [m.k0, m.k1, m.k2, m.k3]

/-- Big-endian byte string of width `k` for `n` (`to_be_bytes` of the `k`-byte
integer `n mod 2 ^ (8 k)`). -/
def beBytes : Nat → Nat → List Nat
  | 0, _ => []
  | k + 1, n => (n / 2 ^ (8 * k)) % 256 :: beBytes k n

/-- Big-endian integer value of a byte string (`from_be_bytes`). -/
def beDecode (l : List Nat) : Nat :=
  l.foldl (fun acc b => acc * 256 + b) 0

/-- `mask_scalar` from `src/frame.rs`: `dst[i] = src[i] ^ mask[i & 3]`. -/
def mask_scalar (src : List Nat) (m : Mask) : List Nat :=
  (List.range src.length).map fun i => src.getD i 0 ^^^ m.get i

/-- The SIMD masking kernels from `src/frame.rs` (`mask_simd_x86` with SSSE3,
`mask_simd_aarch` with NEON): the four key bytes are broadcast into a 16-byte
register (`_mm_set1_epi32(i32::from_ne_bytes(mask))` / `vdupq_n_u32`), so
register byte `j` holds `mask[j & 3]`; each full 16-byte chunk is XORed
vector-wise (byte `16 k + j` of the chunk with register byte `j = i % 16`),
and the tail `chunks * 16 .. len` is handled byte-wise exactly as the scalar
kernel. -/
def mask_simd (src : List Nat) (m : Mask) : List Nat :=
  let chunks := src.length / 16
  (List.range src.length).map fun i =>
    if i < chunks * 16 then src.getD i 0 ^^^ m.get (i % 16)
    else src.getD i 0 ^^^ m.get i

/-- `mask_data` from `src/frame.rs`: dispatches to a SIMD kernel when
`len >= 16` (and the CPU feature is available), otherwise to the scalar
kernel. The feature probe only selects between byte-identical kernels, so it
is modelled as taking the SIMD path whenever `len >= 16`. -/
def mask_data (src : List Nat) (m : Mask) : List Nat :=
  if 16 ≤ src.length then mask_simd src m else mask_scalar src m

/-- A frame view (`pub struct Frame` in `src/frame.rs`): `fin`, `opcode` and
the payload bytes. -/
structure Frame where
  fin : Bool
  opcode : Opcode
  data : List Nat
  deriving DecidableEq, Repr

/-- The header length chosen by `Frame::encode` for a payload of length
`data_len`: `match data_len { ..126 => 6, 126..65536 => 8, _ => 14 }`. -/
def headerLen (data_len : Nat) : Nat :=
  if data_len < 126 then 6 else if data_len < 65536 then 8 else 14

/-- `Frame::encode` from `src/frame.rs`: writes
`(FIN << 7) | opcode`, then the second byte `0x80 | len-marker`, the optional
big-endian extended length (`(data_len as u16).to_be_bytes()` resp.
`(data_len as u64).to_be_bytes()`), the 4 mask-key bytes, and the payload
masked by `mask_data`. -/
def Frame.encode (f : Frame) (m : Mask) : List Nat :=
  let data_len := f.data.length
  let b0 := (if f.fin then 128 else 0) ||| f.opcode.u8
  if data_len < 126 then
    b0 :: (0x80 ||| data_len) :: (m.bytes ++ mask_data f.data m)
  else if data_len < 65536 then
    b0 :: (0x80 ||| 126) :: (beBytes 2 data_len ++ m.bytes ++ mask_data f.data m)
  else
    b0 :: (0x80 ||| 127) :: (beBytes 8 data_len ++ m.bytes ++ mask_data f.data m)

/-- The error type of `src/client.rs` (`enum Error`): I/O errors, protocol
violations with their static message, and the `Closed` state carrying the
peer's declared close code (as its raw 16-bit value) and reason bytes. -/
inductive Error where
  | io (msg : String)
  | protocolViolation (msg : String)
  | closed (code : Option Nat) (reason : List Nat)
  deriving DecidableEq, Repr

/-- The read-side state of a `Client`: the receive buffer contents
(`read_buffer`), the consumed watermark (`read_consumed`), the buffer's
capacity (`read_buffer.capacity()`, fixed at construction from
`Config::read_buffer_capacity`), and the bytes the underlying stream will
still deliver before end-of-stream. -/
structure ClientState where
  buffer : List Nat
  consumed : Nat
  capacity : Nat
  stream : List Nat
  deriving DecidableEq, Repr

/-- `Client::CHUNK_SIZE`. -/
def CHUNK_SIZE : Nat := 4096

/-- Rust release-mode (wrapping) `usize` subtraction, used to model the
unguarded `self.read_buffer.capacity() - Self::CHUNK_SIZE`. -/
def usizeSub (a b : Nat) : Nat :=
  if b ≤ a then a - b else a + (2 ^ 64 - b)

/-- The wrapping subtraction `a - b` underflows exactly when `a < b`. -/
def usizeSubUnderflows (a b : Nat) : Prop := a < b

instance : DecidablePred fun a => usizeSubUnderflows a CHUNK_SIZE := by
  intro a; unfold usizeSubUnderflows; infer_instance

/-- The compaction step at the top of `read_frame_inner`: when
`read_consumed > 0 && read_buffer.len() > read_buffer.capacity() - CHUNK_SIZE`,
drain the consumed prefix and reset the watermark to 0. -/
def compactIfNeeded (s : ClientState) : ClientState :=
  if 0 < s.consumed ∧ usizeSub s.capacity CHUNK_SIZE < s.buffer.length then
    { s with buffer := s.buffer.drop s.consumed, consumed := 0 }
  else s

/-- Fuel-indexed body of `ensure_read`. Each iteration of the source loop
checks `read_buffer.len() < read_consumed + len` and, when more bytes are
needed, performs `read_extend(buffer, CHUNK_SIZE)` on the stream.

Modelled from the spec: the stream collaborator `read_extend` (an external
crate, not part of this repository) appends up to `CHUNK_SIZE` bytes per call
— here the next `min CHUNK_SIZE avail` stream bytes — and reports an
unexpected-EOF I/O error at end-of-stream, which `ensure_read` propagates
(spec §4.3, §6, §9).

A fuel of `stream.length` always suffices because every reading iteration
consumes at least one stream byte; the fuel-exhausted case repeats the
end-of-stream answer and is never reached from `ensureRead`. -/
def ensureReadGo : Nat → ClientState → Nat → ClientState × Except Error Unit
  | 0, s, n =>
    if s.consumed + n ≤ s.buffer.length then (s, .ok ())
    else (s, .error (.io "unexpected EOF"))
  | fuel + 1, s, n =>
    if s.consumed + n ≤ s.buffer.length then (s, .ok ())
    else
      match s.stream with
      | [] => (s, .error (.io "unexpected EOF"))
      | _ :: _ =>
        ensureReadGo fuel
          { s with
            buffer := s.buffer ++ s.stream.take (min CHUNK_SIZE s.stream.length),
            stream := s.stream.drop (min CHUNK_SIZE s.stream.length) } n

/-- `Client::ensure_read` from `src/client.rs`: read from the stream in
`CHUNK_SIZE` requests until `read_buffer.len() >= read_consumed + len`.
(The stray un-awaited `self.stream.read_exact()` expression in the source is
dead code; spec §9 records it as a leftover outside the contract.) -/
def ensureRead (s : ClientState) (n : Nat) : ClientState × Except Error Unit :=
  ensureReadGo s.stream.length s n

/-- The extended-length step of `read_frame_inner` for data opcodes:
`length == 126` reads a big-endian `u16`, `length == 127` a big-endian `u64`,
anything else is used as-is. -/
def readDataLen (s : ClientState) (len0 : Nat) : ClientState × Except Error Nat :=
  if len0 = 126 then
    match ensureRead s 2 with
    | (s1, .error e) => (s1, .error e)
    | (s1, .ok _) =>
      ({ s1 with consumed := s1.consumed + 2 },
       .ok (beDecode ((s1.buffer.drop s1.consumed).take 2)))
  else if len0 = 127 then
    match ensureRead s 8 with
    | (s1, .error e) => (s1, .error e)
    | (s1, .ok _) =>
      ({ s1 with consumed := s1.consumed + 8 },
       .ok (beDecode ((s1.buffer.drop s1.consumed).take 8)))
  else (s, .ok len0)

/-- The common payload step at the end of `read_frame_inner`:
`ensure_read(length)`, slice `read_buffer[consumed .. consumed + length]`,
advance the watermark, return the frame view. -/
def readPayload (s : ClientState) (fin : Bool) (opcode : Opcode) (len : Nat) :
    ClientState × Except Error Frame :=
  match ensureRead s len with
  | (s1, .error e) => (s1, .error e)
  | (s1, .ok _) =>
    ({ s1 with consumed := s1.consumed + len },
     .ok { fin := fin, opcode := opcode, data := (s1.buffer.drop s1.consumed).take len })

/-- `Client::read_frame_inner` from `src/client.rs`: compaction, 2-byte header
parse, validation (reserve bits, mask bit, reserved opcodes, control-frame
rules), extended length for data opcodes, then the payload slice. -/
def readFrameInner (s0 : ClientState) : ClientState × Except Error Frame :=
  let s := compactIfNeeded s0
  match ensureRead s 2 with
  | (s1, .error e) => (s1, .error e)
  | (s1, .ok _) =>
    let b1 := s1.buffer.getD s1.consumed 0
    let b2 := s1.buffer.getD (s1.consumed + 1) 0
    let s2 := { s1 with consumed := s1.consumed + 2 }
    let fin : Bool := b1 &&& 0x80 != 0
    let rsv := b1 &&& 0x70
    let opcode := Opcode.ofNibble (b1 &&& 0x0F)
    let masked : Bool := b2 &&& 0x80 != 0
    let len0 := b2 &&& 0x7F
    if rsv ≠ 0 then
      (s2, .error (.protocolViolation "Reserve bit must be 0."))
    else if masked then
      (s2, .error (.protocolViolation "Server to client communication should be unmasked."))
    else
      match opcode with
      | .reserved3 | .reserved4 | .reserved5 | .reserved6 | .reserved7
      | .reservedB | .reservedC | .reservedD | .reservedE | .reservedF =>
        (s2, .error (.protocolViolation "Use of reserved opcode."))
      | .close =>
        if len0 = 1 then
          (s2, .error (.protocolViolation "Close frame with a missing close reason byte."))
        else if 125 < len0 then
          (s2, .error (.protocolViolation "Control frame larger than 125 bytes."))
        else if !fin then
          (s2, .error (.protocolViolation "Control frame cannot be fragmented."))
        else readPayload s2 fin opcode len0
      | .ping | .pong =>
        if 125 < len0 then
          (s2, .error (.protocolViolation "Control frame larger than 125 bytes."))
        else if !fin then
          (s2, .error (.protocolViolation "Control frame cannot be fragmented."))
        else readPayload s2 fin opcode len0
      | .continuation | .text | .binary =>
        match readDataLen s2 len0 with
        | (s3, .error e) => (s3, .error e)
        | (s3, .ok len) => readPayload s3 fin opcode len

/-- A fresh read-side state, as built by `Client::new`: empty buffer with the
configured capacity, watermark 0. -/
def ClientState.fresh (capacity : Nat) (stream : List Nat) : ClientState :=
  { buffer := [], consumed := 0, capacity := capacity, stream := stream }

/-- A client as seen by the public API. Modelled from the spec: the close
state (`Closed{code?, reason?}`, spec §7) that the public `read_frame` wrapper
maintains is missing from `src/` — only `read_frame_inner` and the `Closed`
error declaration are present — so it is modelled here: once a Close frame has
been fully processed, the peer's declared code (big-endian 16-bit value of the
first two payload bytes; absent iff the payload was empty) and reason (the
remaining payload bytes) are recorded. -/
structure Client where
  state : ClientState
  closed : Option (Option Nat × List Nat)
  deriving DecidableEq, Repr

/-- The code/reason declared by a Close payload: code is the big-endian 16-bit
value of the first two bytes, absent iff the payload length is zero; the
reason is the rest. (A one-byte payload is rejected by `read_frame_inner`
before this is ever consulted.) -/
def closeInfo (payload : List Nat) : Option Nat × List Nat :=
  (if payload.length = 0 then none else some (beDecode (payload.take 2)),
   payload.drop 2)

/-- Modelled from the spec: the public `read_frame` operation (spec §4.3, §7),
missing from `src/`, wrapping `read_frame_inner`: once closed, every call
fails with `Closed`; a fully processed Close frame records the peer's declared
code and reason. -/
def Client.read_frame (c : Client) : Client × Except Error Frame :=
  match c.closed with
  | some ci => (c, .error (.closed ci.1 ci.2))
  | none =>
    match readFrameInner c.state with
    | (s, .error e) => ({ c with state := s }, .error e)
    | (s, .ok f) =>
      if f.opcode = .close then
        ({ state := s, closed := some (closeInfo f.data) }, .ok f)
      else
        ({ c with state := s }, .ok f)

/-- Modelled from the spec: the send path guarded by the close state (spec
§7); when not closed it encodes the frame via `Frame::encode` (the stream
write itself is an external collaborator) and returns the written bytes. -/
def Client.send (c : Client) (f : Frame) (m : Mask) :
    Client × Except Error (List Nat) :=
  match c.closed with
  | some ci => (c, .error (.closed ci.1 ci.2))
  | none => (c, .ok (f.encode m))

/-- Cyclic XOR of a payload with a 4-byte key given as a list (used to state
the unmask direction of the codec round trip). -/
def unmaskWith (key : List Nat) (p : List Nat) : List Nat :=
  (List.range p.length).map fun i => p.getD i 0 ^^^ key.getD (i % 4) 0

/-- The unmasked (server-side) image of an encoded client frame: clear the
MASK bit of the second byte, keep the extended length, drop the 4 key bytes,
and XOR the payload back with the key read from the frame itself. -/
def stripMask (e : List Nat) : List Nat :=
  let b0 := e.getD 0 0
  let x := e.getD 1 0 &&& 0x7F
  if x ≤ 125 then
    b0 :: x :: unmaskWith ((e.drop 2).take 4) (e.drop 6)
  else if x = 126 then
    b0 :: x :: ((e.drop 2).take 2 ++ unmaskWith ((e.drop 4).take 4) (e.drop 8))
  else
    b0 :: x :: ((e.drop 2).take 8 ++ unmaskWith ((e.drop 10).take 4) (e.drop 14))

/-! ### Bit-level helper lemmas -/

theorem and_three_eq_mod (i : Nat) : i &&& 3 = i % 4 := by
  have h := Nat.and_pow_two_sub_one_eq_mod i 2
  norm_num at h
  exact h

theorem and_15_eq_mod (i : Nat) : i &&& 15 = i % 16 := by
  have h := Nat.and_pow_two_sub_one_eq_mod i 4
  norm_num at h
  exact h

theorem and_127_eq_mod (i : Nat) : i &&& 127 = i % 128 := by
  have h := Nat.and_pow_two_sub_one_eq_mod i 7
  norm_num at h
  exact h

theorem and_128_of_lt {v : Nat} (h : v < 128) : v &&& 128 = 0 := by
  have h2 := Nat.and_two_pow v 7
  rw [Nat.testBit_lt_two_pow (x := v) (i := 7) (by norm_num [h])] at h2
  norm_num at h2
  exact h2

theorem Mask.get_eq_bytes (m : Mask) (i : Nat) : m.get i = m.bytes.getD (i % 4) 0 := by
  unfold Mask.get Mask.bytes
  rw [and_three_eq_mod]
  have h4 : i % 4 < 4 := Nat.mod_lt _ (by norm_num)
  have : i % 4 = 0 ∨ i % 4 = 1 ∨ i % 4 = 2 ∨ i % 4 = 3 := by omega
  rcases this with h | h | h | h <;> rw [h] <;> rfl

theorem Mask.get_mod16 (m : Mask) (i : Nat) : m.get (i % 16) = m.get i := by
  unfold Mask.get
  rw [and_three_eq_mod, and_three_eq_mod, Nat.mod_mod_of_dvd i (by norm_num : (4 : Nat) ∣ 16)]

/-! ### Masking kernel helper lemmas -/

theorem length_mask_scalar (src : List Nat) (m : Mask) :
    (mask_scalar src m).length = src.length := by
  simp [mask_scalar]

theorem length_mask_simd (src : List Nat) (m : Mask) :
    (mask_simd src m).length = src.length := by
  simp [mask_simd]

theorem mask_simd_eq_scalar (src : List Nat) (m : Mask) :
    mask_simd src m = mask_scalar src m := by
  unfold mask_simd mask_scalar
  refine List.map_congr_left fun i _ => ?_
  split
  · rw [Mask.get_mod16]
  · rfl

theorem mask_data_eq_scalar (src : List Nat) (m : Mask) :
    mask_data src m = mask_scalar src m := by
  unfold mask_data
  split
  · exact mask_simd_eq_scalar src m
  · rfl

theorem length_mask_data (src : List Nat) (m : Mask) :
    (mask_data src m).length = src.length := by
  rw [mask_data_eq_scalar]; exact length_mask_scalar src m

theorem mask_scalar_getD (src : List Nat) (m : Mask) {i : Nat} (h : i < src.length) :
    (mask_scalar src m).getD i 0 = src.getD i 0 ^^^ m.get i := by
  unfold mask_scalar
  simp [List.getD_eq_getElem?_getD, List.getElem?_range h]

theorem mask_data_getD (src : List Nat) (m : Mask) {i : Nat} (h : i < src.length) :
    (mask_data src m).getD i 0 = src.getD i 0 ^^^ m.get i := by
  rw [mask_data_eq_scalar]; exact mask_scalar_getD src m h

/-! ### Big-endian codec helper lemmas -/

theorem length_beBytes (k n : Nat) : (beBytes k n).length = k := by
  induction k generalizing n with
  | zero => rfl
  | succ k ih => simp [beBytes, ih]

theorem foldl_beBytes (k n acc : Nat) :
    (beBytes k n).foldl (fun acc b => acc * 256 + b) acc
      = acc * 2 ^ (8 * k) + n % 2 ^ (8 * k) := by
  induction k generalizing acc with
  | zero => simp [beBytes, Nat.mod_one]
  | succ k ih =>
    rw [beBytes, List.foldl_cons, ih]
    have hp : (0 : Nat) < 2 ^ (8 * k) := Nat.pos_pow_of_pos _ (by norm_num)
    have hsplit : n % 2 ^ (8 * (k + 1)) = n % 2 ^ (8 * k) + 2 ^ (8 * k) * (n / 2 ^ (8 * k) % 256) := by
      have : (2 : Nat) ^ (8 * (k + 1)) = 2 ^ (8 * k) * 256 := by ring
      rw [this, Nat.mod_mul]
    rw [hsplit]
    ring

theorem beDecode_beBytes (k n : Nat) : beDecode (beBytes k n) = n % 2 ^ (8 * k) := by
  unfold beDecode
  rw [foldl_beBytes]
  simp

/-! ### `ensure_read` helper lemmas -/

theorem ClientState.eq_self_of_stream_nil {s : ClientState} (hs : s.stream = []) :
    s = { s with stream := ([] : List Nat) } := by
  rw [← hs]

theorem ensureReadGo_spec (fuel : Nat) (s : ClientState) (n : Nat) :
    (∃ k, (ensureReadGo fuel s n).1 =
        { s with buffer := s.buffer ++ s.stream.take k, stream := s.stream.drop k })
    ∧ ((ensureReadGo fuel s n).2 = .ok () →
        (ensureReadGo fuel s n).1.consumed + n ≤ (ensureReadGo fuel s n).1.buffer.length) := by
  induction fuel generalizing s with
  | zero =>
    simp only [ensureReadGo]
    split
    · next h => exact ⟨⟨0, by simp⟩, fun _ => h⟩
    · exact ⟨⟨0, by simp⟩, by simp⟩
  | succ fuel ih =>
    simp only [ensureReadGo]
    split
    · next h => exact ⟨⟨0, by simp⟩, fun _ => h⟩
    · next h =>
      rcases hs : s.stream with _ | ⟨b, rest⟩
      · refine ⟨⟨0, ?_⟩, by simp⟩
        simp only [List.take_nil, List.append_nil, List.drop_nil]
        exact ClientState.eq_self_of_stream_nil hs
      · set c := min CHUNK_SIZE (b :: rest).length with hc
        set s' : ClientState :=
          { s with buffer := s.buffer ++ (b :: rest).take c,
                   stream := (b :: rest).drop c } with hs'
        obtain ⟨⟨k', hk'⟩, hok⟩ := ih s'
        refine ⟨⟨c + k', ?_⟩, hok⟩
        rw [hk', hs']
        simp only [List.append_assoc, ← List.take_add, List.drop_drop]

theorem ensureRead_state (s : ClientState) (n : Nat) :
    ∃ k, (ensureRead s n).1 =
      { s with buffer := s.buffer ++ s.stream.take k, stream := s.stream.drop k } :=
  (ensureReadGo_spec s.stream.length s n).1

theorem ensureRead_ok_len (s : ClientState) (n : Nat)
    (h : (ensureRead s n).2 = .ok ()) :
    (ensureRead s n).1.consumed + n ≤ (ensureRead s n).1.buffer.length :=
  (ensureReadGo_spec s.stream.length s n).2 h

theorem ensureRead_consumed (s : ClientState) (n : Nat) :
    (ensureRead s n).1.consumed = s.consumed := by
  obtain ⟨k, hk⟩ := ensureRead_state s n
  rw [hk]

theorem ensureRead_capacity (s : ClientState) (n : Nat) :
    (ensureRead s n).1.capacity = s.capacity := by
  obtain ⟨k, hk⟩ := ensureRead_state s n
  rw [hk]

theorem ensureRead_buffer_le (s : ClientState) (n : Nat) :
    s.buffer.length ≤ (ensureRead s n).1.buffer.length := by
  obtain ⟨k, hk⟩ := ensureRead_state s n
  rw [hk]
  simp

theorem ensureRead_of_le {s : ClientState} {n : Nat}
    (h : s.consumed + n ≤ s.buffer.length) : ensureRead s n = (s, .ok ()) := by
  rw [ensureRead]
  cases hst : s.stream.length <;> simp only [ensureReadGo] <;> simp [h]

theorem ensureReadGo_eof (fuel : Nat) (s : ClientState) (n : Nat)
    (hfuel : s.stream.length ≤ fuel)
    (h : s.buffer.length + s.stream.length < s.consumed + n) :
    ensureReadGo fuel s n =
      ({ s with buffer := s.buffer ++ s.stream, stream := [] },
       .error (.io "unexpected EOF")) := by
  induction fuel generalizing s with
  | zero =>
    have hs : s.stream = [] := by
      rcases hst : s.stream with _ | _
      · rfl
      · rw [hst] at hfuel; simp at hfuel
    have hnot : ¬ (s.consumed + n ≤ s.buffer.length) := by
      rw [hs] at h; simp at h; omega
    simp only [ensureReadGo]
    simp only [hnot, if_false, hs, List.append_nil]
    rw [← ClientState.eq_self_of_stream_nil hs]
  | succ fuel ih =>
    have hnot : ¬ (s.consumed + n ≤ s.buffer.length) := by omega
    simp only [ensureReadGo]
    rcases hs : s.stream with _ | ⟨b, rest⟩
    · simp only [hnot, if_false, hs, List.append_nil]
      rw [← ClientState.eq_self_of_stream_nil hs]
    · simp only [hnot, if_false]
      rw [hs] at h hfuel
      show ensureReadGo fuel
        { s with
          buffer := s.buffer ++ (b :: rest).take (min CHUNK_SIZE (b :: rest).length),
          stream := (b :: rest).drop (min CHUNK_SIZE (b :: rest).length) } n = _
      generalize hc : min CHUNK_SIZE (b :: rest).length = c
      have hc1 : 1 ≤ c := hc ▸ le_min (by norm_num [CHUNK_SIZE]) (by simp)
      have hcle : c ≤ (b :: rest).length := hc ▸ min_le_right _ _
      have hrec := ih
        { s with buffer := s.buffer ++ (b :: rest).take c,
                 stream := (b :: rest).drop c }
        (by simp only [List.length_drop]; omega)
        (by
          simp only [List.length_append, List.length_take, List.length_drop]
          rw [min_eq_left hcle]
          omega)
      rw [hrec]
      simp [List.append_assoc, List.take_append_drop]

theorem ensureRead_eof {s : ClientState} {n : Nat}
    (h : s.buffer.length + s.stream.length < s.consumed + n) :
    ensureRead s n =
      ({ s with buffer := s.buffer ++ s.stream, stream := [] },
       .error (.io "unexpected EOF")) :=
  ensureReadGo_eof s.stream.length s n (Nat.le_refl _) h

theorem ensureReadGo_suffices (fuel : Nat) (s : ClientState) (n : Nat)
    (hfuel : s.stream.length ≤ fuel)
    (h : s.consumed + n ≤ s.buffer.length + s.stream.length) :
    (ensureReadGo fuel s n).2 = .ok () := by
  induction fuel generalizing s with
  | zero =>
    have hs : s.stream = [] := by
      rcases hst : s.stream with _ | _
      · rfl
      · rw [hst] at hfuel; simp at hfuel
    rw [hs] at h
    simp only [List.length_nil, Nat.add_zero] at h
    simp only [ensureReadGo]
    simp [h]
  | succ fuel ih =>
    simp only [ensureReadGo]
    split
    · rfl
    · next hnot =>
      rcases hs : s.stream with _ | ⟨b, rest⟩
      · rw [hs] at h
        simp only [List.length_nil, Nat.add_zero] at h
        omega
      · rw [hs] at h hfuel
        show (ensureReadGo fuel
          { s with
            buffer := s.buffer ++ (b :: rest).take (min CHUNK_SIZE (b :: rest).length),
            stream := (b :: rest).drop (min CHUNK_SIZE (b :: rest).length) } n).2 = .ok ()
        generalize hc : min CHUNK_SIZE (b :: rest).length = c
        have hc1 : 1 ≤ c := hc ▸ le_min (by norm_num [CHUNK_SIZE]) (by simp)
        have hcle : c ≤ (b :: rest).length := hc ▸ min_le_right _ _
        exact ih
          { s with buffer := s.buffer ++ (b :: rest).take c,
                   stream := (b :: rest).drop c }
          (by simp only [List.length_drop]; omega)
          (by
            simp only [List.length_append, List.length_take, List.length_drop]
            rw [min_eq_left hcle]
            omega)

theorem ensureRead_suffices {s : ClientState} {n : Nat}
    (h : s.consumed + n ≤ s.buffer.length + s.stream.length) :
    (ensureRead s n).2 = .ok () :=
  ensureReadGo_suffices s.stream.length s n (Nat.le_refl _) h

/-! ### List indexing helper lemmas -/

theorem getD_append_add (l1 l2 : List Nat) (i d : Nat) :
    (l1 ++ l2).getD (l1.length + i) d = l2.getD i d := by
  simp only [List.getD_eq_getElem?_getD]
  rw [List.getElem?_append_right (Nat.le_add_right _ _)]
  simp

theorem getD_cons_cons (a b : Nat) (l : List Nat) (i d : Nat) :
    (a :: b :: l).getD (2 + i) d = l.getD i d := by
  have h2 : 2 + i = i + 1 + 1 := by omega
  rw [h2]
  simp [List.getD_eq_getElem?_getD]

/-! ### Claim C4 — SIMD/scalar masking equivalence -/

/-- C4: for every payload (of any length, including lengths ≥ 16 with
non-multiple-of-16 tails) and every 4-byte mask, the SIMD mask kernel
(16-byte vector XOR over full chunks, then a scalar tail) produces output
byte-identical to the scalar kernel `dst[i] = src[i] XOR mask[i mod 4]`,
and so does the runtime-dispatching `mask_data`. -/
theorem c4_simd_scalar_equivalence (src : List Nat) (m : Mask) :
    mask_simd src m = mask_scalar src m ∧ mask_data src m = mask_scalar src m :=
  ⟨mask_simd_eq_scalar src m, mask_data_eq_scalar src m⟩

/-! ### Claim C1 — encode layout -/

/-- C1: for every frame with payload length `L` and every 4-byte mask,
`encode` writes exactly `headerLen + L` bytes, where `headerLen` is 6 when
`L ≤ 125`, 8 when `126 ≤ L ≤ 65535`, and 14 when `L ≥ 65536`; byte 0 is
`(FIN << 7) | opcode`; the second byte is `0x80` ORed with `L`, 126, or 127
respectively; extended lengths are big-endian (16-bit or 64-bit); the 4-byte
mask precedes the payload; and payload byte `i` equals
`data[i] XOR mask[i mod 4]`. In particular the spec's concrete "hello"
example holds byte for byte. -/
theorem c1_encode_layout (f : Bool) (op : Opcode) (data : List Nat) (m : Mask)
    (h64 : data.length < 2 ^ 64) :
    ((Frame.encode ⟨f, op, data⟩ m).length = headerLen data.length + data.length
    ∧ (Frame.encode ⟨f, op, data⟩ m).getD 0 0 = (if f then 128 else 0) ||| op.u8
    ∧ (data.length ≤ 125 →
        (Frame.encode ⟨f, op, data⟩ m).getD 1 0 = 0x80 ||| data.length)
    ∧ (126 ≤ data.length → data.length ≤ 65535 →
        (Frame.encode ⟨f, op, data⟩ m).getD 1 0 = 0x80 ||| 126
        ∧ beDecode (((Frame.encode ⟨f, op, data⟩ m).drop 2).take 2) = data.length)
    ∧ (65536 ≤ data.length →
        (Frame.encode ⟨f, op, data⟩ m).getD 1 0 = 0x80 ||| 127
        ∧ beDecode (((Frame.encode ⟨f, op, data⟩ m).drop 2).take 8) = data.length)
    ∧ ((Frame.encode ⟨f, op, data⟩ m).drop (headerLen data.length - 4)).take 4 = m.bytes
    ∧ (∀ i, i < data.length →
        (Frame.encode ⟨f, op, data⟩ m).getD (headerLen data.length + i) 0
          = data.getD i 0 ^^^ m.get i))
    ∧ Frame.encode ⟨true, .binary, [104, 101, 108, 108, 111]⟩ ⟨10, 241, 34, 51⟩
        = [130, 133, 10, 241, 34, 51, 98, 148, 78, 95, 101] := by
  have hml : Mask.bytes m = [m.k0, m.k1, m.k2, m.k3] := rfl
  have hml4 : (Mask.bytes m).length = 4 := rfl
  refine ⟨?_, by decide⟩
  by_cases h1 : data.length < 126
  · have hE : Frame.encode ⟨f, op, data⟩ m
        = ((if f then 128 else 0) ||| op.u8) :: (0x80 ||| data.length)
          :: (m.bytes ++ mask_data data m) := by
      simp only [Frame.encode]
      rw [if_pos h1]
    have hH : headerLen data.length = 6 := by simp [headerLen, h1]
    rw [hE, hH]
    refine ⟨?_, rfl, fun _ => rfl, ?_, ?_, ?_, ?_⟩
    · simp [length_mask_data, hml]
      omega
    · intro h126 _
      omega
    · intro h65536
      omega
    · show (m.bytes ++ mask_data data m).take 4 = m.bytes
      exact List.take_left' hml4
    · intro i hi
      have h6 : 6 + i = 2 + (4 + i) := by omega
      rw [h6, getD_cons_cons]
      have ha := getD_append_add m.bytes (mask_data data m) i 0
      rw [hml4] at ha
      rw [ha, mask_data_getD data m hi]
  · by_cases h2 : data.length < 65536
    · have hE : Frame.encode ⟨f, op, data⟩ m
          = ((if f then 128 else 0) ||| op.u8) :: (0x80 ||| 126)
            :: (beBytes 2 data.length ++ (m.bytes ++ mask_data data m)) := by
        simp only [Frame.encode]
        rw [if_neg h1, if_pos h2, List.append_assoc]
      have hH : headerLen data.length = 8 := by simp [headerLen, h1, h2]
      rw [hE, hH]
      have hbe2 : (beBytes 2 data.length).length = 2 := length_beBytes 2 _
      refine ⟨?_, rfl, ?_, fun _ _ => ⟨rfl, ?_⟩, ?_, ?_, ?_⟩
      · simp [length_mask_data, hml, length_beBytes]
        omega
      · intro h125
        omega
      · show beDecode ((beBytes 2 data.length ++ (m.bytes ++ mask_data data m)).take 2)
          = data.length
        rw [List.take_left' hbe2, beDecode_beBytes]
        exact Nat.mod_eq_of_lt (by norm_num; omega)
      · intro h65536
        omega
      · show ((beBytes 2 data.length ++ (m.bytes ++ mask_data data m)).drop 2).take 4
          = m.bytes
        rw [List.drop_left' hbe2]
        exact List.take_left' hml4
      · intro i hi
        have h8 : 8 + i = 2 + (2 + (4 + i)) := by omega
        rw [h8, getD_cons_cons]
        have ha := getD_append_add (beBytes 2 data.length) (m.bytes ++ mask_data data m) (4 + i) 0
        rw [hbe2] at ha
        rw [ha]
        have hb := getD_append_add m.bytes (mask_data data m) i 0
        rw [hml4] at hb
        rw [hb, mask_data_getD data m hi]
    · have hE : Frame.encode ⟨f, op, data⟩ m
          = ((if f then 128 else 0) ||| op.u8) :: (0x80 ||| 127)
            :: (beBytes 8 data.length ++ (m.bytes ++ mask_data data m)) := by
        simp only [Frame.encode]
        rw [if_neg h1, if_neg h2, List.append_assoc]
      have hH : headerLen data.length = 14 := by simp [headerLen, h1, h2]
      rw [hE, hH]
      have hbe8 : (beBytes 8 data.length).length = 8 := length_beBytes 8 _
      refine ⟨?_, rfl, ?_, ?_, fun _ => ⟨rfl, ?_⟩, ?_, ?_⟩
      · simp [length_mask_data, hml, length_beBytes]
        omega
      · intro h125
        omega
      · intro _ h65535
        omega
      · show beDecode ((beBytes 8 data.length ++ (m.bytes ++ mask_data data m)).take 8)
          = data.length
        rw [List.take_left' hbe8, beDecode_beBytes]
        exact Nat.mod_eq_of_lt (by norm_num; omega)
      · show ((beBytes 8 data.length ++ (m.bytes ++ mask_data data m)).drop 8).take 4
          = m.bytes
        rw [List.drop_left' hbe8]
        exact List.take_left' hml4
      · intro i hi
        have h14 : 14 + i = 2 + (8 + (4 + i)) := by omega
        rw [h14, getD_cons_cons]
        have ha := getD_append_add (beBytes 8 data.length) (m.bytes ++ mask_data data m) (4 + i) 0
        rw [hbe8] at ha
        rw [ha]
        have hb := getD_append_add m.bytes (mask_data data m) i 0
        rw [hml4] at hb
        rw [hb, mask_data_getD data m hi]

/-- C1 witness: the layout theorem applied to the spec's concrete example
(`FIN = true`, `Binary`, payload "hello", mask `[0x0A, 0xF1, 0x22, 0x33]`). -/
theorem c1_encode_layout_witness :
    (([104, 101, 108, 108, 111] : List Nat).length < 2 ^ 64)
    ∧ Frame.encode ⟨true, .binary, [104, 101, 108, 108, 111]⟩ ⟨10, 241, 34, 51⟩
        = [130, 133, 10, 241, 34, 51, 98, 148, 78, 95, 101] :=
  ⟨by norm_num,
   (c1_encode_layout true .binary [104, 101, 108, 108, 111] ⟨10, 241, 34, 51⟩
      (by norm_num)).2⟩

/-! ### Claim C8 — u8 ↔ Opcode mapping -/

/-- C8 counterexample: the claim "for every u8 value x, from_u8(x) succeeds"
is false: `TryFrom<u8>` rejects 16 (and every value above 15) with
`InvalidOpcode`. -/
theorem c8_counterexample :
    Opcode.try_from 16 = .error (.invalidOpcode 16) := by decide

/-- C8 (amended): `from_u8` succeeds exactly on the nibble range `0..=15`
(where it inverts `u8`, so `u8(from_u8(x)) = x`), and rejects every other
byte value with `InvalidOpcode(x)`. -/
theorem c8_opcode_mapping (x : Nat) (hx : x < 256) :
    (x < 16 → Opcode.try_from x = .ok (Opcode.ofNibble x) ∧ (Opcode.ofNibble x).u8 = x)
    ∧ (16 ≤ x → Opcode.try_from x = .error (.invalidOpcode x)) := by
  interval_cases x <;> exact ⟨by decide, by decide⟩

/-- C8 witness: the amended mapping theorem applied at nibble 9 (`Ping`). -/
theorem c8_opcode_mapping_witness :
    (9 < 16 → Opcode.try_from 9 = .ok (Opcode.ofNibble 9) ∧ (Opcode.ofNibble 9).u8 = 9)
    ∧ (16 ≤ 9 → Opcode.try_from 9 = .error (.invalidOpcode 9)) :=
  c8_opcode_mapping 9 (by decide)

/-! ### Claim C10 — compaction-guard subtraction -/

/-- C10: the compaction guard computes `capacity - CHUNK_SIZE` with unguarded
`usize` subtraction. For every capacity ≥ CHUNK_SIZE = 4096 the subtraction
never underflows and equals the mathematical difference; for a configuration
with capacity 16 (< 4096) and `consumed > 0` the subtraction underflows
(wrapping to a huge value) and the guard therefore does not compact. -/
theorem c10_compaction_guard (cap consumed : Nat) (buf strm : List Nat)
    (hcap : CHUNK_SIZE ≤ cap) (hconsumed : 0 < consumed) (hlen : buf.length ≤ 16) :
    (¬ usizeSubUnderflows cap CHUNK_SIZE
      ∧ usizeSub cap CHUNK_SIZE = cap - CHUNK_SIZE)
    ∧ (usizeSubUnderflows 16 CHUNK_SIZE
      ∧ compactIfNeeded { buffer := buf, consumed := consumed, capacity := 16, stream := strm }
          = { buffer := buf, consumed := consumed, capacity := 16, stream := strm }) := by
  refine ⟨⟨?_, ?_⟩, ?_, ?_⟩
  · unfold usizeSubUnderflows
    omega
  · unfold usizeSub
    rw [if_pos hcap]
  · decide
  · unfold compactIfNeeded
    rw [if_neg]
    rintro ⟨-, habs⟩
    have hval : usizeSub 16 CHUNK_SIZE = 16 + (2 ^ 64 - 4096) := by decide
    simp only at habs
    rw [hval] at habs
    omega

/-- C10 witness: the guard theorem at the default 128 KiB capacity with
`consumed = 1` and a 1-byte buffer. -/
theorem c10_compaction_guard_witness :
    (¬ usizeSubUnderflows 131072 CHUNK_SIZE
      ∧ usizeSub 131072 CHUNK_SIZE = 131072 - CHUNK_SIZE)
    ∧ (usizeSubUnderflows 16 CHUNK_SIZE
      ∧ compactIfNeeded { buffer := [7], consumed := 1, capacity := 16, stream := [] }
          = { buffer := [7], consumed := 1, capacity := 16, stream := [] }) :=
  c10_compaction_guard 131072 1 [7] [] (by decide) (by decide) (by decide)

/-! ### Header-bit helper lemmas -/

theorem or128_and127 {v : Nat} (h : v < 128) : (128 ||| v) &&& 127 = v := by
  rw [Nat.and_distrib_right]
  have h1 : 128 &&& 127 = 0 := by decide
  rw [h1, and_127_eq_mod, Nat.mod_eq_of_lt h, Nat.zero_or]

theorem b0_bits (f : Bool) (o : Opcode) :
    (((if f then 128 else 0) ||| o.u8) &&& 0x70 = 0)
    ∧ (((if f then 128 else 0) ||| o.u8) &&& 0x0F = o.u8)
    ∧ ((((if f then 128 else 0) ||| o.u8) &&& 0x80 != 0) = f) := by
  cases f <;> cases o <;> decide

theorem ofNibble_u8 (o : Opcode) : Opcode.ofNibble o.u8 = o := by
  cases o <;> rfl

/-! ### Claim C2 — masked incoming frame is rejected -/

/-- C2 counterexample: the claim's second half ("no payload bytes are read
from the stream") is false. With an empty buffer and the masked frame
`[130, 133, 1, 2, 3, 4, 5]` (header + 5 payload bytes) arriving on the
stream, `read_frame_inner` fails with the unmasked-communication violation
and consumes only the 2 header bytes of the buffer — but the chunked
`ensure_read(2)` has already pulled the whole 7-byte chunk, payload included,
out of the stream (the post-state stream is empty, not `[1, 2, 3, 4, 5]`). -/
theorem c2_counterexample :
    readFrameInner { buffer := [], consumed := 0, capacity := 131072,
                     stream := [130, 133, 1, 2, 3, 4, 5] }
      = ({ buffer := [130, 133, 1, 2, 3, 4, 5], consumed := 2, capacity := 131072,
           stream := [] },
         .error (.protocolViolation "Server to client communication should be unmasked."))
    ∧ (readFrameInner { buffer := [], consumed := 0, capacity := 131072,
                        stream := [130, 133, 1, 2, 3, 4, 5] }).1.stream
        ≠ [1, 2, 3, 4, 5] := by decide

/-! ### Claim C5 — encode/parse round trip -/

/-- C5 counterexample: the receive parser applied to the raw bytes emitted by
`encode` does not recover the frame: `encode` always sets the MASK bit, and
`read_frame_inner` rejects any masked frame with a protocol violation. -/
theorem c5_counterexample :
    (readFrameInner { buffer := Frame.encode ⟨true, .binary, [104, 101, 108, 108, 111]⟩
                        ⟨10, 241, 34, 51⟩,
                      consumed := 0, capacity := 131072, stream := [] }).2
      = .error (.protocolViolation "Server to client communication should be unmasked.")
    ∧ (readFrameInner { buffer := Frame.encode ⟨true, .binary, [104, 101, 108, 108, 111]⟩
                          ⟨10, 241, 34, 51⟩,
                        consumed := 0, capacity := 131072, stream := [] }).2
        ≠ .ok { fin := true, opcode := .binary, data := [104, 101, 108, 108, 111] } := by
  decide

/-- C2 (amended): an incoming frame whose second header byte has the MASK bit
set is rejected with the unmasked-communication protocol violation; the
consumed watermark advances exactly over the 2-byte header (never into the
payload), and no stream read beyond the header-ensuring `ensure_read(2)` is
issued — the post state is exactly the header-ensured state with
`consumed + 2`. (The header-ensuring read itself is chunked and may buffer
payload bytes, which is what refutes the original claim's "no payload bytes
are read from the stream".) -/
theorem c2_masked_frame_rejected (s0 s1 : ClientState)
    (her : ensureRead (compactIfNeeded s0) 2 = (s1, .ok ()))
    (hrsv : s1.buffer.getD s1.consumed 0 &&& 0x70 = 0)
    (hmask : s1.buffer.getD (s1.consumed + 1) 0 &&& 0x80 ≠ 0) :
    readFrameInner s0
      = ({ s1 with consumed := s1.consumed + 2 },
         .error (.protocolViolation "Server to client communication should be unmasked.")) := by
  simp only [readFrameInner]
  rw [her]
  simp only [hrsv, ne_eq, not_true_eq_false, if_false]
  have hb : (s1.buffer.getD (s1.consumed + 1) 0 &&& 128 != 0) = true := by
    simpa using hmask
  rw [if_pos hb]

/-- C2 witness: the amended theorem applied to a client whose buffer already
holds the masked header `[0x82, 0x85]` followed by 5 payload bytes. -/
theorem c2_masked_frame_rejected_witness :
    readFrameInner { buffer := [130, 133, 1, 2, 3, 4, 5], consumed := 0,
                     capacity := 131072, stream := [] }
      = ({ buffer := [130, 133, 1, 2, 3, 4, 5], consumed := 2,
           capacity := 131072, stream := [] },
         .error (.protocolViolation "Server to client communication should be unmasked.")) :=
  c2_masked_frame_rejected
    { buffer := [130, 133, 1, 2, 3, 4, 5], consumed := 0, capacity := 131072, stream := [] }
    { buffer := [130, 133, 1, 2, 3, 4, 5], consumed := 0, capacity := 131072, stream := [] }
    (by decide) (by decide) (by decide)

/-! ### Claim C6 — fragmented control frames -/

/-- C6 counterexample: a control frame with `FIN = 0` is not always rejected
with the fragmentation message: for a Ping header `[0x09, 126]` (FIN = 0,
declared length 126) the size check fires first, so the error is
"Control frame larger than 125 bytes.", not "Control frame cannot be
fragmented." -/
theorem c6_counterexample :
    (readFrameInner { buffer := [9, 126], consumed := 0, capacity := 131072,
                      stream := [] }).2
      = .error (.protocolViolation "Control frame larger than 125 bytes.")
    ∧ (readFrameInner { buffer := [9, 126], consumed := 0, capacity := 131072,
                        stream := [] }).2
        ≠ .error (.protocolViolation "Control frame cannot be fragmented.") := by
  decide

/-- C6 (amended): an incoming control frame (Close, Ping or Pong) with
`FIN = 0` is rejected with "Control frame cannot be fragmented." provided its
declared length is at most 125 and it is not a Close frame with declared
length 1 — those two size checks run first and take precedence (as the
counterexample shows); the reserve and mask checks also precede it. -/
theorem c6_control_fragmented (s0 s1 : ClientState)
    (her : ensureRead (compactIfNeeded s0) 2 = (s1, .ok ()))
    (hrsv : s1.buffer.getD s1.consumed 0 &&& 0x70 = 0)
    (hmask : s1.buffer.getD (s1.consumed + 1) 0 &&& 0x80 = 0)
    (hfin : s1.buffer.getD s1.consumed 0 &&& 0x80 = 0)
    (hop : s1.buffer.getD s1.consumed 0 &&& 0x0F = 8
         ∨ s1.buffer.getD s1.consumed 0 &&& 0x0F = 9
         ∨ s1.buffer.getD s1.consumed 0 &&& 0x0F = 10)
    (hlen : s1.buffer.getD (s1.consumed + 1) 0 &&& 0x7F ≤ 125)
    (hnot1 : ¬ (s1.buffer.getD s1.consumed 0 &&& 0x0F = 8
                ∧ s1.buffer.getD (s1.consumed + 1) 0 &&& 0x7F = 1)) :
    readFrameInner s0
      = ({ s1 with consumed := s1.consumed + 2 },
         .error (.protocolViolation "Control frame cannot be fragmented.")) := by
  simp only [readFrameInner]
  rw [her]
  simp only [hrsv, hmask, ne_eq, not_true_eq_false, if_false, bne_self_eq_false,
    Bool.false_eq_true]
  rcases hop with h8 | h9 | h10
  · rw [h8]
    simp only [Opcode.ofNibble]
    rw [if_neg (fun h => hnot1 ⟨h8, h⟩), if_neg (Nat.not_lt.mpr hlen),
      if_pos (by rw [hfin]; rfl)]
  · rw [h9]
    simp only [Opcode.ofNibble]
    rw [if_neg (Nat.not_lt.mpr hlen), if_pos (by rw [hfin]; rfl)]
  · rw [h10]
    simp only [Opcode.ofNibble]
    rw [if_neg (Nat.not_lt.mpr hlen), if_pos (by rw [hfin]; rfl)]

/-- C6 witness: the amended theorem applied to the unfragmented Ping header
`[0x09, 0x05]` (FIN = 0, declared length 5). -/
theorem c6_control_fragmented_witness :
    readFrameInner { buffer := [9, 5], consumed := 0, capacity := 131072, stream := [] }
      = ({ buffer := [9, 5], consumed := 2, capacity := 131072, stream := [] },
         .error (.protocolViolation "Control frame cannot be fragmented.")) :=
  c6_control_fragmented
    { buffer := [9, 5], consumed := 0, capacity := 131072, stream := [] }
    { buffer := [9, 5], consumed := 0, capacity := 131072, stream := [] }
    (by decide) (by decide) (by decide) (by decide) (by decide) (by decide) (by decide)

/-! ### Claim C7 — ensure_read contract -/

theorem ensureReadGo_fuel (f1 f2 : Nat) (s : ClientState) (n : Nat)
    (h1 : s.stream.length ≤ f1) (h2 : s.stream.length ≤ f2) :
    ensureReadGo f1 s n = ensureReadGo f2 s n := by
  induction f1 generalizing s f2 with
  | zero =>
    have hs : s.stream = [] := by
      rcases hst : s.stream with _ | _
      · rfl
      · rw [hst] at h1; simp at h1
    cases f2 with
    | zero => rfl
    | succ f2 => simp only [ensureReadGo, hs]
  | succ f1 ih =>
    cases f2 with
    | zero =>
      have hs : s.stream = [] := by
        rcases hst : s.stream with _ | _
        · rfl
        · rw [hst] at h2; simp at h2
      simp only [ensureReadGo, hs]
    | succ f2 =>
      simp only [ensureReadGo]
      split
      · rfl
      · rcases hs : s.stream with _ | ⟨b, rest⟩
        · rfl
        · rw [hs] at h1 h2
          generalize hc : min CHUNK_SIZE (b :: rest).length = c
          have hc1 : 1 ≤ c := hc ▸ le_min (by norm_num [CHUNK_SIZE]) (by simp)
          exact ih f2
            { s with buffer := s.buffer ++ (b :: rest).take c,
                     stream := (b :: rest).drop c }
            (by simp only [List.length_drop]; omega)
            (by simp only [List.length_drop]; omega)

/-- C7: `ensure_read(n)` loops reading from the stream until the receive
buffer holds at least `consumed + n` bytes: success implies that bound (and
the stream supplying enough bytes guarantees success); when the stream ends
before `n` bytes are available it returns the I/O "unexpected EOF" error
(after buffering whatever remained); and each iteration requests
`CHUNK_SIZE = 4096` bytes, transferring `min CHUNK_SIZE avail` bytes of the
stream per step. -/
theorem c7_ensure_read (s : ClientState) (n : Nat) :
    ((ensureRead s n).2 = .ok () →
        (ensureRead s n).1.consumed + n ≤ (ensureRead s n).1.buffer.length)
    ∧ (s.consumed + n ≤ s.buffer.length + s.stream.length →
        (ensureRead s n).2 = .ok ())
    ∧ (s.buffer.length + s.stream.length < s.consumed + n →
        ensureRead s n
          = ({ s with buffer := s.buffer ++ s.stream, stream := [] },
             .error (.io "unexpected EOF")))
    ∧ (¬ s.consumed + n ≤ s.buffer.length → s.stream ≠ [] →
        ensureRead s n
          = ensureRead { s with
              buffer := s.buffer ++ s.stream.take (min CHUNK_SIZE s.stream.length),
              stream := s.stream.drop (min CHUNK_SIZE s.stream.length) } n) := by
  refine ⟨ensureRead_ok_len s n, fun h => ensureRead_suffices h,
    fun h => ensureRead_eof h, fun hne hst => ?_⟩
  rcases hs : s.stream with _ | ⟨b, rest⟩
  · exact absurd hs hst
  · unfold ensureRead
    have hlen : s.stream.length = rest.length + 1 := by rw [hs]; simp
    rw [hlen]
    simp only [ensureReadGo]
    rw [if_neg hne, hs]
    generalize hc : min CHUNK_SIZE (b :: rest).length = c
    have hc1 : 1 ≤ c := hc ▸ le_min (by norm_num [CHUNK_SIZE]) (by simp)
    apply ensureReadGo_fuel
    · simp only [List.length_drop, List.length_cons]
      omega
    · simp only [List.length_drop]
      exact Nat.le_refl _

/-- C7 witness: the contract applied to a state needing 4 bytes with 2
buffered and 2 more on the stream. -/
theorem c7_ensure_read_witness :
    ((ensureRead { buffer := [1, 2], consumed := 0, capacity := 131072,
                   stream := [3, 4] } 4).2 = .ok () →
      (ensureRead { buffer := [1, 2], consumed := 0, capacity := 131072,
                    stream := [3, 4] } 4).1.consumed + 4
        ≤ (ensureRead { buffer := [1, 2], consumed := 0, capacity := 131072,
                        stream := [3, 4] } 4).1.buffer.length)
    ∧ (ensureRead { buffer := [1, 2], consumed := 0, capacity := 131072,
                    stream := [3, 4] } 4).2 = .ok () := by
  have h := c7_ensure_read
    { buffer := [1, 2], consumed := 0, capacity := 131072, stream := [3, 4] } 4
  exact ⟨h.1, h.2.1 (by decide)⟩

/-! ### Claim C9 — receive-buffer invariant -/

theorem compactIfNeeded_inv (s : ClientState) (h : s.consumed ≤ s.buffer.length) :
    (compactIfNeeded s).consumed ≤ (compactIfNeeded s).buffer.length := by
  unfold compactIfNeeded
  split
  · simp
  · exact h

theorem ensureRead_inv (s : ClientState) (n : Nat) (h : s.consumed ≤ s.buffer.length) :
    (ensureRead s n).1.consumed ≤ (ensureRead s n).1.buffer.length := by
  obtain ⟨k, hk⟩ := ensureRead_state s n
  rw [hk]
  simp only [List.length_append]
  exact Nat.le_trans h (Nat.le_add_right _ _)

theorem readPayload_inv (s : ClientState) (fin : Bool) (op : Opcode) (len : Nat)
    (h : s.consumed ≤ s.buffer.length) :
    (readPayload s fin op len).1.consumed ≤ (readPayload s fin op len).1.buffer.length := by
  unfold readPayload
  cases her : ensureRead s len with
  | mk s1 r =>
    cases r with
    | error e =>
      have hi := ensureRead_inv s len h
      rw [her] at hi
      exact hi
    | ok u =>
      cases u
      have hok := ensureRead_ok_len s len (by rw [her])
      rw [her] at hok
      exact hok

theorem readDataLen_inv (s : ClientState) (len0 : Nat) (h : s.consumed ≤ s.buffer.length) :
    (readDataLen s len0).1.consumed ≤ (readDataLen s len0).1.buffer.length := by
  unfold readDataLen
  split
  · cases her : ensureRead s 2 with
    | mk s1 r =>
      cases r with
      | error e =>
        have hi := ensureRead_inv s 2 h
        rw [her] at hi
        exact hi
      | ok u =>
        cases u
        have hok := ensureRead_ok_len s 2 (by rw [her])
        rw [her] at hok
        exact hok
  · split
    · cases her : ensureRead s 8 with
      | mk s1 r =>
        cases r with
        | error e =>
          have hi := ensureRead_inv s 8 h
          rw [her] at hi
          exact hi
        | ok u =>
          cases u
          have hok := ensureRead_ok_len s 8 (by rw [her])
          rw [her] at hok
          exact hok
    · exact h

theorem readFrameInner_inv (s : ClientState) (h : s.consumed ≤ s.buffer.length) :
    (readFrameInner s).1.consumed ≤ (readFrameInner s).1.buffer.length := by
  have hc : (compactIfNeeded s).consumed ≤ (compactIfNeeded s).buffer.length :=
    compactIfNeeded_inv s h
  simp only [readFrameInner]
  cases her : ensureRead (compactIfNeeded s) 2 with
  | mk s1 r =>
    cases r with
    | error e =>
      have hi := ensureRead_inv (compactIfNeeded s) 2 hc
      rw [her] at hi
      exact hi
    | ok u =>
      cases u
      have hok := ensureRead_ok_len (compactIfNeeded s) 2 (by rw [her])
      rw [her] at hok
      simp only at hok ⊢
      have hdata : ∀ fin op,
          (match readDataLen { s1 with consumed := s1.consumed + 2 }
              (s1.buffer.getD (s1.consumed + 1) 0 &&& 127) with
           | (s3, Except.error e) => (s3, Except.error e)
           | (s3, Except.ok len) => readPayload s3 fin op len).1.consumed
          ≤ (match readDataLen { s1 with consumed := s1.consumed + 2 }
              (s1.buffer.getD (s1.consumed + 1) 0 &&& 127) with
             | (s3, Except.error e) => (s3, Except.error e)
             | (s3, Except.ok len) => readPayload s3 fin op len).1.buffer.length := by
        intro fin op
        cases hdl : readDataLen { s1 with consumed := s1.consumed + 2 }
            (s1.buffer.getD (s1.consumed + 1) 0 &&& 127) with
        | mk s3 r3 =>
          have hdi := readDataLen_inv { s1 with consumed := s1.consumed + 2 }
            (s1.buffer.getD (s1.consumed + 1) 0 &&& 127) hok
          rw [hdl] at hdi
          cases r3 with
          | error e => exact hdi
          | ok len => exact readPayload_inv _ _ _ _ hdi
      split
      · exact hok
      · split
        · exact hok
        · split
          · exact hok
          · exact hok
          · exact hok
          · exact hok
          · exact hok
          · exact hok
          · exact hok
          · exact hok
          · exact hok
          · exact hok
          · split
            · exact hok
            · split
              · exact hok
              · split
                · exact hok
                · exact readPayload_inv _ _ _ _ hok
          · split
            · exact hok
            · split
              · exact hok
              · exact readPayload_inv _ _ _ _ hok
          · split
            · exact hok
            · split
              · exact hok
              · exact readPayload_inv _ _ _ _ hok
          · exact hdata _ _
          · exact hdata _ _
          · exact hdata _ _

/-- C9: the receive-buffer invariant `consumed ≤ length` is preserved by the
whole of `read_frame_inner` (from any state satisfying it, in particular from
a freshly constructed client, whose state satisfies it trivially);
`ensure_read` succeeds only once `length ≥ consumed + n` (and never moves the
watermark); and compaction drains exactly the consumed prefix and resets the
watermark to 0. -/
theorem c9_receive_buffer_invariant (s : ClientState) (n cap : Nat) (st : List Nat)
    (hinv : s.consumed ≤ s.buffer.length) :
    (readFrameInner s).1.consumed ≤ (readFrameInner s).1.buffer.length
    ∧ ((ensureRead s n).2 = .ok () →
        (ensureRead s n).1.consumed + n ≤ (ensureRead s n).1.buffer.length
        ∧ (ensureRead s n).1.consumed = s.consumed)
    ∧ ((compactIfNeeded s).consumed ≤ (compactIfNeeded s).buffer.length
        ∧ (0 < s.consumed ∧ usizeSub s.capacity CHUNK_SIZE < s.buffer.length →
            compactIfNeeded s
              = { s with buffer := s.buffer.drop s.consumed, consumed := 0 }))
    ∧ (ClientState.fresh cap st).consumed ≤ (ClientState.fresh cap st).buffer.length := by
  refine ⟨readFrameInner_inv s hinv,
    fun hok => ⟨ensureRead_ok_len s n hok, ensureRead_consumed s n⟩,
    ⟨compactIfNeeded_inv s hinv, fun hcond => ?_⟩,
    Nat.le_refl _⟩
  unfold compactIfNeeded
  rw [if_pos hcond]

/-- C9 witness: the invariant theorem applied to a fresh client whose stream
holds one complete 2-byte Pong frame. -/
theorem c9_receive_buffer_invariant_witness :
    (readFrameInner { buffer := [], consumed := 0, capacity := 131072,
                      stream := [138, 0] }).1.consumed
      ≤ (readFrameInner { buffer := [], consumed := 0, capacity := 131072,
                          stream := [138, 0] }).1.buffer.length :=
  (c9_receive_buffer_invariant
    { buffer := [], consumed := 0, capacity := 131072, stream := [138, 0] }
    2 131072 [] (by decide)).1

/-! ### Unmasking helper lemmas -/

theorem map_getD_range (l : List Nat) :
    (List.range l.length).map (fun i => l.getD i 0) = l := by
  apply List.ext_getElem
  · simp
  · intro i h1 h2
    simp [List.getD_eq_getElem?_getD, List.getElem?_eq_getElem h2]

theorem bytes_getD_mod (m : Mask) (i : Nat) : m.bytes.getD (i % 4) 0 = m.get i :=
  (Mask.get_eq_bytes m i).symm

theorem unmaskWith_mask_data (data : List Nat) (m : Mask) :
    unmaskWith m.bytes (mask_data data m) = data := by
  rw [mask_data_eq_scalar]
  unfold unmaskWith
  rw [length_mask_scalar]
  have hcong : ∀ i ∈ List.range data.length,
      (mask_scalar data m).getD i 0 ^^^ m.bytes.getD (i % 4) 0
        = data.getD i 0 := by
    intro i hi
    rw [List.mem_range] at hi
    rw [mask_scalar_getD data m hi, bytes_getD_mod, Nat.xor_cancel_right]
  rw [List.map_congr_left hcong, map_getD_range]

/-! ### Claim C3 — Closed error after a processed Close frame -/

/-- C3: once `read_frame` has fully processed a Close frame, the client
records the peer's declared close code and reason (`closeInfo`: the code is
the big-endian 16-bit value of the first two payload bytes and is absent iff
the Close payload length was zero; the reason is the remaining bytes), and
every subsequent read or send on the same client returns the
`Closed{code, reason}` error with exactly those values. The close-state
wrapper is modelled from the spec (§4.3, §7); `src/` provides only
`read_frame_inner` and the `Closed` error declaration. -/
theorem c3_closed_after_close (c c' : Client) (f : Frame)
    (h : Client.read_frame c = (c', .ok f)) (hop : f.opcode = .close) :
    c'.closed = some (closeInfo f.data)
    ∧ ((closeInfo f.data).1 = none ↔ f.data.length = 0)
    ∧ Client.read_frame c'
        = (c', .error (.closed (closeInfo f.data).1 (closeInfo f.data).2))
    ∧ ∀ g m, Client.send c' g m
        = (c', .error (.closed (closeInfo f.data).1 (closeInfo f.data).2)) := by
  unfold Client.read_frame at h
  cases hcl : c.closed with
  | some ci =>
    rw [hcl] at h
    simp at h
  | none =>
    rw [hcl] at h
    cases hri : readFrameInner c.state with
    | mk s r =>
      rw [hri] at h
      cases r with
      | error e => simp at h
      | ok fr =>
        simp only at h
        by_cases hfr : fr.opcode = .close
        · rw [if_pos hfr] at h
          injection h with h1 h2
          injection h2 with h2
          subst h1
          subst h2
          refine ⟨rfl, ?_, rfl, fun g m => rfl⟩
          by_cases h0 : fr.data.length = 0 <;> simp [closeInfo, h0]
        · rw [if_neg hfr] at h
          injection h with h1 h2
          injection h2 with h2
          exact absurd (h2 ▸ hop) hfr

/-- C3 witness: a client whose buffer holds the Close frame
`[0x88, 0x02, 0x03, 0xE8]` (code 1000, empty reason); after processing it,
reading again and sending both fail with `Closed(some 1000, [])`. -/
theorem c3_closed_after_close_witness :
    ({ state := { buffer := [136, 2, 3, 232], consumed := 4, capacity := 131072,
                  stream := [] },
       closed := some (some 1000, []) } : Client).closed
      = some (closeInfo [3, 232])
    ∧ ((closeInfo ([3, 232] : List Nat)).1 = none ↔ ([3, 232] : List Nat).length = 0)
    ∧ Client.read_frame
        { state := { buffer := [136, 2, 3, 232], consumed := 4, capacity := 131072,
                     stream := [] },
          closed := some (some 1000, []) }
        = ({ state := { buffer := [136, 2, 3, 232], consumed := 4, capacity := 131072,
                        stream := [] },
             closed := some (some 1000, []) },
           .error (.closed (closeInfo [3, 232]).1 (closeInfo [3, 232]).2))
    ∧ ∀ g m, Client.send
        { state := { buffer := [136, 2, 3, 232], consumed := 4, capacity := 131072,
                     stream := [] },
          closed := some (some 1000, []) } g m
        = ({ state := { buffer := [136, 2, 3, 232], consumed := 4, capacity := 131072,
                        stream := [] },
             closed := some (some 1000, []) },
           .error (.closed (closeInfo [3, 232]).1 (closeInfo [3, 232]).2)) :=
  c3_closed_after_close
    { state := { buffer := [136, 2, 3, 232], consumed := 0, capacity := 131072,
                 stream := [] },
      closed := none }
    { state := { buffer := [136, 2, 3, 232], consumed := 4, capacity := 131072,
                 stream := [] },
      closed := some (some 1000, []) }
    { fin := true, opcode := .close, data := [3, 232] }
    (by decide) rfl

/-! ### Claim C5 — strip/parse lemmas -/

theorem strip_small (fin : Bool) (op : Opcode) (data : List Nat) (m : Mask)
    (h1 : data.length < 126) :
    stripMask (Frame.encode ⟨fin, op, data⟩ m)
      = ((if fin then 128 else 0) ||| op.u8) :: data.length :: data := by
  have hE : Frame.encode ⟨fin, op, data⟩ m
      = ((if fin then 128 else 0) ||| op.u8) :: (0x80 ||| data.length)
        :: (m.bytes ++ mask_data data m) := by
    simp only [Frame.encode]
    rw [if_pos h1]
  rw [hE]
  have hx : (((if fin then 128 else 0) ||| op.u8) :: (0x80 ||| data.length)
        :: (m.bytes ++ mask_data data m)).getD 1 0 &&& 127 = data.length := by
    have hg : (((if fin then 128 else 0) ||| op.u8) :: (0x80 ||| data.length)
        :: (m.bytes ++ mask_data data m)).getD 1 0 = 0x80 ||| data.length := rfl
    rw [hg]
    exact or128_and127 (by omega)
  unfold stripMask
  rw [hx]
  rw [if_pos (by omega : data.length ≤ 125)]
  have h24 : ((((if fin then 128 else 0) ||| op.u8) :: (0x80 ||| data.length)
      :: (m.bytes ++ mask_data data m)).drop 2).take 4 = m.bytes := rfl
  have h6 : (((if fin then 128 else 0) ||| op.u8) :: (0x80 ||| data.length)
      :: (m.bytes ++ mask_data data m)).drop 6 = mask_data data m := rfl
  rw [h24, h6, unmaskWith_mask_data]
  rfl

theorem strip_ext16 (fin : Bool) (op : Opcode) (data : List Nat) (m : Mask)
    (h1 : ¬ data.length < 126) (h2 : data.length < 65536) :
    stripMask (Frame.encode ⟨fin, op, data⟩ m)
      = ((if fin then 128 else 0) ||| op.u8) :: 126 :: (beBytes 2 data.length ++ data) := by
  have hE : Frame.encode ⟨fin, op, data⟩ m
      = ((if fin then 128 else 0) ||| op.u8) :: (0x80 ||| 126)
        :: (beBytes 2 data.length ++ m.bytes ++ mask_data data m) := by
    simp only [Frame.encode]
    rw [if_neg h1, if_pos h2]
  rw [hE]
  have hx : (((if fin then 128 else 0) ||| op.u8) :: (0x80 ||| 126)
        :: (beBytes 2 data.length ++ m.bytes ++ mask_data data m)).getD 1 0 &&& 127
      = 126 := by
    have hg : (((if fin then 128 else 0) ||| op.u8) :: (0x80 ||| 126)
        :: (beBytes 2 data.length ++ m.bytes ++ mask_data data m)).getD 1 0
        = 0x80 ||| 126 := rfl
    rw [hg]
    decide
  unfold stripMask
  rw [hx]
  rw [if_neg (by omega : ¬ (126 : Nat) ≤ 125), if_pos rfl]
  have ha : ((((if fin then 128 else 0) ||| op.u8) :: (0x80 ||| 126)
      :: (beBytes 2 data.length ++ m.bytes ++ mask_data data m)).drop 2).take 2
      = beBytes 2 data.length := rfl
  have hb : ((((if fin then 128 else 0) ||| op.u8) :: (0x80 ||| 126)
      :: (beBytes 2 data.length ++ m.bytes ++ mask_data data m)).drop 4).take 4
      = m.bytes := rfl
  have hc : (((if fin then 128 else 0) ||| op.u8) :: (0x80 ||| 126)
      :: (beBytes 2 data.length ++ m.bytes ++ mask_data data m)).drop 8
      = mask_data data m := rfl
  rw [ha, hb, hc, unmaskWith_mask_data]
  rfl

theorem strip_ext64 (fin : Bool) (op : Opcode) (data : List Nat) (m : Mask)
    (h1 : ¬ data.length < 126) (h2 : ¬ data.length < 65536) :
    stripMask (Frame.encode ⟨fin, op, data⟩ m)
      = ((if fin then 128 else 0) ||| op.u8) :: 127 :: (beBytes 8 data.length ++ data) := by
  have hE : Frame.encode ⟨fin, op, data⟩ m
      = ((if fin then 128 else 0) ||| op.u8) :: (0x80 ||| 127)
        :: (beBytes 8 data.length ++ m.bytes ++ mask_data data m) := by
    simp only [Frame.encode]
    rw [if_neg h1, if_neg h2]
  rw [hE]
  have hx : (((if fin then 128 else 0) ||| op.u8) :: (0x80 ||| 127)
        :: (beBytes 8 data.length ++ m.bytes ++ mask_data data m)).getD 1 0 &&& 127
      = 127 := by
    have hg : (((if fin then 128 else 0) ||| op.u8) :: (0x80 ||| 127)
        :: (beBytes 8 data.length ++ m.bytes ++ mask_data data m)).getD 1 0
        = 0x80 ||| 127 := rfl
    rw [hg]
    decide
  unfold stripMask
  rw [hx]
  rw [if_neg (by omega : ¬ (127 : Nat) ≤ 125), if_neg (by omega : ¬ (127 : Nat) = 126)]
  have ha : ((((if fin then 128 else 0) ||| op.u8) :: (0x80 ||| 127)
      :: (beBytes 8 data.length ++ m.bytes ++ mask_data data m)).drop 2).take 8
      = beBytes 8 data.length := rfl
  have hb : ((((if fin then 128 else 0) ||| op.u8) :: (0x80 ||| 127)
      :: (beBytes 8 data.length ++ m.bytes ++ mask_data data m)).drop 10).take 4
      = m.bytes := rfl
  have hc : (((if fin then 128 else 0) ||| op.u8) :: (0x80 ||| 127)
      :: (beBytes 8 data.length ++ m.bytes ++ mask_data data m)).drop 14
      = mask_data data m := rfl
  rw [ha, hb, hc, unmaskWith_mask_data]
  rfl

theorem parse_buffered_small (b0 : Nat) (fin : Bool) (op : Opcode) (data : List Nat)
    (cap : Nat) (hb70 : b0 &&& 112 = 0) (hb15 : b0 &&& 15 = op.u8)
    (hb80 : (b0 &&& 128 != 0) = fin) (hop : op.is_data = true)
    (h1 : data.length < 126) :
    readFrameInner { buffer := b0 :: data.length :: data, consumed := 0,
                     capacity := cap, stream := [] }
      = ({ buffer := b0 :: data.length :: data, consumed := 2 + data.length,
           capacity := cap, stream := [] },
         .ok { fin := fin, opcode := op, data := data }) := by
  simp only [readFrameInner]
  have hcompact : compactIfNeeded
      { buffer := b0 :: data.length :: data, consumed := 0, capacity := cap, stream := [] }
      = { buffer := b0 :: data.length :: data, consumed := 0, capacity := cap,
          stream := [] } := by
    simp [compactIfNeeded]
  rw [hcompact]
  have her : ensureRead
      { buffer := b0 :: data.length :: data, consumed := 0, capacity := cap, stream := [] } 2
      = ({ buffer := b0 :: data.length :: data, consumed := 0, capacity := cap,
           stream := [] }, .ok ()) := ensureRead_of_le (by simp)
  rw [her]
  dsimp only [Nat.zero_add]
  have hg1 : (b0 :: data.length :: data).getD 0 0 = b0 := rfl
  have hg2 : (b0 :: data.length :: data).getD 1 0 = data.length := rfl
  rw [hg1, hg2]
  have hm : data.length &&& 128 = 0 := and_128_of_lt (by omega)
  have hl0 : data.length &&& 127 = data.length := by
    rw [and_127_eq_mod]; exact Nat.mod_eq_of_lt (by omega)
  rw [if_neg (by simp [hb70]), if_neg (by rw [hm]; simp), hb15, ofNibble_u8, hb80, hl0]
  have hdl : readDataLen
      { buffer := b0 :: data.length :: data, consumed := 2, capacity := cap, stream := [] }
      data.length
      = ({ buffer := b0 :: data.length :: data, consumed := 2, capacity := cap,
           stream := [] }, .ok data.length) := by
    unfold readDataLen
    rw [if_neg (by omega), if_neg (by omega)]
  have her2 : ensureRead
      { buffer := b0 :: data.length :: data, consumed := 2, capacity := cap, stream := [] }
      data.length
      = ({ buffer := b0 :: data.length :: data, consumed := 2, capacity := cap,
           stream := [] }, .ok ()) :=
    ensureRead_of_le (by simp [List.length_cons]; omega)
  have hdrop : (b0 :: data.length :: data).drop 2 = data := rfl
  cases op <;> try exact absurd hop (by decide)
  all_goals (
    dsimp only;
    rw [hdl];
    dsimp only;
    simp only [readPayload];
    rw [her2];
    dsimp only;
    rw [hdrop, List.take_length])

theorem parse_buffered_ext16 (b0 : Nat) (fin : Bool) (op : Opcode) (data : List Nat)
    (cap : Nat) (hb70 : b0 &&& 112 = 0) (hb15 : b0 &&& 15 = op.u8)
    (hb80 : (b0 &&& 128 != 0) = fin) (hop : op.is_data = true)
    (h2 : data.length < 65536) :
    readFrameInner { buffer := b0 :: 126 :: (beBytes 2 data.length ++ data),
                     consumed := 0, capacity := cap, stream := [] }
      = ({ buffer := b0 :: 126 :: (beBytes 2 data.length ++ data),
           consumed := 4 + data.length, capacity := cap, stream := [] },
         .ok { fin := fin, opcode := op, data := data }) := by
  have hlenb : (b0 :: 126 :: (beBytes 2 data.length ++ data)).length
      = 4 + data.length := by
    simp [length_beBytes]
    omega
  simp only [readFrameInner]
  have hcompact : compactIfNeeded
      { buffer := b0 :: 126 :: (beBytes 2 data.length ++ data), consumed := 0,
        capacity := cap, stream := [] }
      = { buffer := b0 :: 126 :: (beBytes 2 data.length ++ data), consumed := 0,
          capacity := cap, stream := [] } := by
    simp [compactIfNeeded]
  rw [hcompact]
  have her : ensureRead
      { buffer := b0 :: 126 :: (beBytes 2 data.length ++ data), consumed := 0,
        capacity := cap, stream := [] } 2
      = ({ buffer := b0 :: 126 :: (beBytes 2 data.length ++ data), consumed := 0,
           capacity := cap, stream := [] }, .ok ()) :=
    ensureRead_of_le (by simp)
  rw [her]
  dsimp only [Nat.zero_add]
  have hg1 : (b0 :: 126 :: (beBytes 2 data.length ++ data)).getD 0 0 = b0 := rfl
  have hg2 : (b0 :: 126 :: (beBytes 2 data.length ++ data)).getD 1 0 = 126 := rfl
  rw [hg1, hg2]
  rw [if_neg (by simp [hb70]), if_neg (by decide), hb15, ofNibble_u8, hb80]
  have hl0 : (126 : Nat) &&& 127 = 126 := by decide
  rw [hl0]
  have hdl : readDataLen
      { buffer := b0 :: 126 :: (beBytes 2 data.length ++ data), consumed := 2,
        capacity := cap, stream := [] } 126
      = ({ buffer := b0 :: 126 :: (beBytes 2 data.length ++ data), consumed := 4,
           capacity := cap, stream := [] }, .ok data.length) := by
    unfold readDataLen
    rw [if_pos rfl]
    have her2 : ensureRead
        { buffer := b0 :: 126 :: (beBytes 2 data.length ++ data), consumed := 2,
          capacity := cap, stream := [] } 2
        = ({ buffer := b0 :: 126 :: (beBytes 2 data.length ++ data), consumed := 2,
             capacity := cap, stream := [] }, .ok ()) :=
      ensureRead_of_le (by simp [length_beBytes])
    rw [her2]
    dsimp only
    have hd2 : (b0 :: 126 :: (beBytes 2 data.length ++ data)).drop 2
        = beBytes 2 data.length ++ data := rfl
    rw [hd2, List.take_left' (length_beBytes 2 _), beDecode_beBytes]
    rw [Nat.mod_eq_of_lt (lt_of_lt_of_le h2 (by norm_num))]
  have her3 : ensureRead
      { buffer := b0 :: 126 :: (beBytes 2 data.length ++ data), consumed := 4,
        capacity := cap, stream := [] } data.length
      = ({ buffer := b0 :: 126 :: (beBytes 2 data.length ++ data), consumed := 4,
           capacity := cap, stream := [] }, .ok ()) :=
    ensureRead_of_le (by simp [length_beBytes]; omega)
  have hd4 : (b0 :: 126 :: (beBytes 2 data.length ++ data)).drop 4 = data := by
    have hstep : (b0 :: 126 :: (beBytes 2 data.length ++ data)).drop 4
        = (beBytes 2 data.length ++ data).drop 2 := rfl
    rw [hstep, List.drop_left' (length_beBytes 2 _)]
  cases op <;> try exact absurd hop (by decide)
  all_goals (
    dsimp only [Nat.zero_add];
    rw [hdl];
    dsimp only;
    simp only [readPayload];
    rw [her3];
    dsimp only;
    rw [hd4, List.take_length])

theorem parse_buffered_ext64 (b0 : Nat) (fin : Bool) (op : Opcode) (data : List Nat)
    (cap : Nat) (hb70 : b0 &&& 112 = 0) (hb15 : b0 &&& 15 = op.u8)
    (hb80 : (b0 &&& 128 != 0) = fin) (hop : op.is_data = true)
    (h64 : data.length < 2 ^ 64) :
    readFrameInner { buffer := b0 :: 127 :: (beBytes 8 data.length ++ data),
                     consumed := 0, capacity := cap, stream := [] }
      = ({ buffer := b0 :: 127 :: (beBytes 8 data.length ++ data),
           consumed := 10 + data.length, capacity := cap, stream := [] },
         .ok { fin := fin, opcode := op, data := data }) := by
  have hlenb : (b0 :: 127 :: (beBytes 8 data.length ++ data)).length
      = 10 + data.length := by
    simp [length_beBytes]
    omega
  simp only [readFrameInner]
  have hcompact : compactIfNeeded
      { buffer := b0 :: 127 :: (beBytes 8 data.length ++ data), consumed := 0,
        capacity := cap, stream := [] }
      = { buffer := b0 :: 127 :: (beBytes 8 data.length ++ data), consumed := 0,
          capacity := cap, stream := [] } := by
    simp [compactIfNeeded]
  rw [hcompact]
  have her : ensureRead
      { buffer := b0 :: 127 :: (beBytes 8 data.length ++ data), consumed := 0,
        capacity := cap, stream := [] } 2
      = ({ buffer := b0 :: 127 :: (beBytes 8 data.length ++ data), consumed := 0,
           capacity := cap, stream := [] }, .ok ()) :=
    ensureRead_of_le (by simp)
  rw [her]
  dsimp only [Nat.zero_add]
  have hg1 : (b0 :: 127 :: (beBytes 8 data.length ++ data)).getD 0 0 = b0 := rfl
  have hg2 : (b0 :: 127 :: (beBytes 8 data.length ++ data)).getD 1 0 = 127 := rfl
  rw [hg1, hg2]
  rw [if_neg (by simp [hb70]), if_neg (by decide), hb15, ofNibble_u8, hb80]
  have hl0 : (127 : Nat) &&& 127 = 127 := by decide
  rw [hl0]
  have hdl : readDataLen
      { buffer := b0 :: 127 :: (beBytes 8 data.length ++ data), consumed := 2,
        capacity := cap, stream := [] } 127
      = ({ buffer := b0 :: 127 :: (beBytes 8 data.length ++ data), consumed := 10,
           capacity := cap, stream := [] }, .ok data.length) := by
    unfold readDataLen
    rw [if_neg (by omega), if_pos rfl]
    have her2 : ensureRead
        { buffer := b0 :: 127 :: (beBytes 8 data.length ++ data), consumed := 2,
          capacity := cap, stream := [] } 8
        = ({ buffer := b0 :: 127 :: (beBytes 8 data.length ++ data), consumed := 2,
             capacity := cap, stream := [] }, .ok ()) :=
      ensureRead_of_le (by simp [length_beBytes])
    rw [her2]
    dsimp only
    have hd2 : (b0 :: 127 :: (beBytes 8 data.length ++ data)).drop 2
        = beBytes 8 data.length ++ data := rfl
    rw [hd2, List.take_left' (length_beBytes 8 _), beDecode_beBytes]
    rw [Nat.mod_eq_of_lt (lt_of_lt_of_le h64 (by norm_num))]
  have her3 : ensureRead
      { buffer := b0 :: 127 :: (beBytes 8 data.length ++ data), consumed := 10,
        capacity := cap, stream := [] } data.length
      = ({ buffer := b0 :: 127 :: (beBytes 8 data.length ++ data), consumed := 10,
           capacity := cap, stream := [] }, .ok ()) :=
    ensureRead_of_le (by simp [length_beBytes]; omega)
  have hd10 : (b0 :: 127 :: (beBytes 8 data.length ++ data)).drop 10 = data := by
    have hstep : (b0 :: 127 :: (beBytes 8 data.length ++ data)).drop 10
        = (beBytes 8 data.length ++ data).drop 8 := rfl
    rw [hstep, List.drop_left' (length_beBytes 8 _)]
  cases op <;> try exact absurd hop (by decide)
  all_goals (
    dsimp only [Nat.zero_add];
    rw [hdl];
    dsimp only;
    simp only [readPayload];
    rw [her3];
    dsimp only;
    rw [hd10, List.take_length])

/-- C5 counterexample helper is above; amended claim: for every frame with a
data opcode and every mask, parsing the *unmasked image* of the emission —
the emitted bytes with the MASK bit cleared, the 4 key bytes removed, and the
payload XORed back with the key read from the frame itself (`stripMask`) —
recovers the original `(fin, opcode, data)`. The receive parser applied to
the raw emission instead fails, because clients must mask and servers must
not (see the counterexample). -/
theorem c5_parse_strip_encode (fin : Bool) (op : Opcode) (data : List Nat) (m : Mask)
    (cap : Nat) (hop : op.is_data = true) (h64 : data.length < 2 ^ 64) :
    (readFrameInner { buffer := stripMask (Frame.encode ⟨fin, op, data⟩ m),
                      consumed := 0, capacity := cap, stream := [] }).2
      = .ok { fin := fin, opcode := op, data := data } := by
  obtain ⟨hb70, hb15, hb80⟩ := b0_bits fin op
  by_cases h1 : data.length < 126
  · rw [strip_small fin op data m h1,
      parse_buffered_small _ fin op data cap hb70 hb15 hb80 hop h1]
  · by_cases h2 : data.length < 65536
    · rw [strip_ext16 fin op data m h1 h2,
        parse_buffered_ext16 _ fin op data cap hb70 hb15 hb80 hop h2]
    · rw [strip_ext64 fin op data m h1 h2,
        parse_buffered_ext64 _ fin op data cap hb70 hb15 hb80 hop h64]

/-- C5 witness: round trip at the spec's "hello" Binary frame and mask. -/
theorem c5_parse_strip_encode_witness :
    (readFrameInner { buffer := stripMask (Frame.encode
                        ⟨true, .binary, [104, 101, 108, 108, 111]⟩ ⟨10, 241, 34, 51⟩),
                      consumed := 0, capacity := 131072, stream := [] }).2
      = .ok { fin := true, opcode := .binary, data := [104, 101, 108, 108, 111] } :=
  c5_parse_strip_encode true .binary [104, 101, 108, 108, 111] ⟨10, 241, 34, 51⟩
    131072 (by decide) (by norm_num)

end CompioWs
